import Mathlib

/-!
Verification development for the llm-chess-arena move-elicitation core:
the move extractor (`legalMoveFromResponse`), the turn-orchestration retry
loop of the OpenRouter move route, the single-shot direct-provider and
llm-move routes, the fixed-window rate limiter (`consumeRateLimit`), the
models-listing operation (`fetchOpenRouterModels`) and the model-alias
resolver (`resolveModelAlias`), shallowly embedded from the TypeScript
sources.  Strings are processed as `List Char`; JavaScript numbers are
modelled as `ℚ`, with `Option ℚ` standing for a number-or-NaN.
-/

namespace LlmChess

/-! ### Characters and basic scanning helpers -/

/-- The double-quote character. -/
def quoteCh : Char := '\x22'

/-- The backslash character. -/
def backslashCh : Char := '\x5c'

/-- The left-brace character. -/
def lbrace : Char := '\x7b'

/-- The right-brace character. -/
def rbrace : Char := '\x7d'

/-- The left-bracket character. -/
def lbrack : Char := '['

/-- The right-bracket character. -/
def rbrack : Char := ']'

/-- ASCII decimal digit test, the `\d` class of JavaScript regexes. -/
def isDigitCh (c : Char) : Bool := '0' ≤ c && c ≤ '9'

/-- JSON whitespace: space, tab, line feed, carriage return (RFC 8259). -/
def isJsonWS (c : Char) : Bool :=
  c = ' ' || c = '\t' || c = '\n' || c = '\r'

/-- JavaScript whitespace as used by `String.prototype.trim` and the `\s`
regex class: the ASCII whitespace characters plus no-break space.  (Further
Unicode space characters belong to the class too; they are not modelled.) -/
def isJsWS (c : Char) : Bool :=
  c = ' ' || c = '\t' || c = '\n' || c = '\r' || c = '\x0b' || c = '\x0c' ||
  c = '\xa0'

/-- Drop leading JSON whitespace. -/
def skipJsonWS (s : List Char) : List Char := s.dropWhile (fun c => isJsonWS c)

/-- `String.prototype.trim`: drop leading and trailing whitespace. -/
def jsTrim (s : List Char) : List Char :=
  ((s.dropWhile (fun c => isJsWS c)).reverse.dropWhile (fun c => isJsWS c)).reverse

/-- Leading maximal digit run and the remainder, the greedy `(\d+)`/`(\d*)`. -/
def takeDigitRun (s : List Char) : List Char × List Char :=
  (s.takeWhile (fun c => isDigitCh c), s.dropWhile (fun c => isDigitCh c))

/-- Numeric value of a digit run (the `Number(...)` of a `\d+` capture). -/
def natOfDigits (ds : List Char) : Nat :=
  ds.foldl (fun acc c => acc * 10 + (c.toNat - '0'.toNat)) 0

/-- Does `pat` occur as a prefix of `s`? -/
def startsWithL (pat s : List Char) : Bool := pat.isPrefixOf s

/-- Index of the first occurrence of `pat` as a substring of `s`
(`String.prototype.indexOf`). -/
def indexOfSub (pat : List Char) : List Char → Option Nat
  | [] => if pat = [] then some 0 else none
  | c :: rest =>
    if startsWithL pat (c :: rest) then some 0
    else (indexOfSub pat rest).map (fun i => i + 1)

/-- Substring test (`String.prototype.includes`). -/
def containsSub (pat s : List Char) : Bool := (indexOfSub pat s).isSome

/-! ### The JavaScript value model and `JSON.parse`

`JSON.parse` of the matched text is modelled by a strict recursive-descent
parser over the RFC 8259 grammar, total by fuel.  Numbers are kept as exact
rationals; double rounding is not modelled (it affects none of the range
comparisons the routes perform, which are the only use of these numbers).
Object field lists keep every binding in order; lookup takes the last
binding for a key, as `JSON.parse` does for duplicate keys.  A `\uXXXX`
escape denoting a lone surrogate is mapped to the null character. -/

inductive JSValue where
  | null
  | bool (b : Bool)
  | num (q : ℚ)
  | str (s : List Char)
  | arr (elems : List JSValue)
  | obj (fields : List (List Char × JSValue))

/-- Hexadecimal digit value (code-point arithmetic on the three digit
ranges). -/
def hexDigitVal (c : Char) : Option Nat :=
  let n := c.toNat
  if 48 ≤ n ∧ n ≤ 57 then some (n - 48)
  else if 97 ≤ n ∧ n ≤ 102 then some (n - 87)
  else if 65 ≤ n ∧ n ≤ 70 then some (n - 55)
  else none

/-- Single-character JSON escape. -/
def unescapeCh (c : Char) : Option Char :=
  if c = quoteCh then some quoteCh
  else if c = backslashCh then some backslashCh
  else if c = '/' then some '/'
  else if c = 'b' then some '\x08'
  else if c = 'f' then some '\x0c'
  else if c = 'n' then some '\n'
  else if c = 'r' then some '\r'
  else if c = 't' then some '\t'
  else none

/-- Parse a JSON string body after the opening quote: the decoded content
and the remainder after the closing quote. -/
def parseStringLit : List Char → Option (List Char × List Char)
  | [] => none
  | c :: rest =>
    if c = quoteCh then some ([], rest)
    else if c = backslashCh then
      match rest with
      | [] => none
      | e :: rest2 =>
        if e = 'u' then
          match rest2 with
          | a :: b :: c2 :: d :: rest3 =>
            match hexDigitVal a, hexDigitVal b, hexDigitVal c2, hexDigitVal d with
            | some va, some vb, some vc, some vd =>
              (parseStringLit rest3).map
                (fun p => (Char.ofNat (((va * 16 + vb) * 16 + vc) * 16 + vd) :: p.1, p.2))
            | _, _, _, _ => none
          | _ => none
        else
          match unescapeCh e with
          | some ch => (parseStringLit rest2).map (fun p => (ch :: p.1, p.2))
          | none => none
    else if c.toNat < 32 then none
    else (parseStringLit rest).map (fun p => (c :: p.1, p.2))

/-- Scale a rational by a signed power of ten (kept in kernel-computable
`Nat.pow` form). -/
def applyTenPow (q : ℚ) (e : Int) : ℚ :=
  match e with
  | Int.ofNat n => q * (Nat.pow 10 n : ℚ)
  | Int.negSucc n => q / (Nat.pow 10 (n + 1) : ℚ)

/-- JSON number grammar: `-?(0|[1-9][0-9]*)(.[0-9]+)?([eE][+-]?[0-9]+)?`,
evaluated exactly in `ℚ`. -/
def parseNumLit (s : List Char) : Option (ℚ × List Char) :=
  let (neg, s1) :=
    match s with
    | c :: r => if c = '-' then (true, r) else (false, s)
    | [] => (false, s)
  let intPart : Option (List Char × List Char) :=
    match s1 with
    | c :: r => if c = '0' then some ([c], r)
                else if isDigitCh c then some (c :: (takeDigitRun r).1, (takeDigitRun r).2)
                else none
    | [] => none
  match intPart with
  | none => none
  | some (ids, s2) =>
    let fracPart : Option (List Char × List Char) :=
      match s2 with
      | c :: r =>
        if c = '.' then
          let (ds, r2) := takeDigitRun r
          if ds = [] then none else some (ds, r2)
        else some ([], s2)
      | [] => some ([], s2)
    match fracPart with
    | none => none
    | some (fds, s3) =>
      let expPart : Option (Int × List Char) :=
        match s3 with
        | c :: r =>
          if c = 'e' || c = 'E' then
            let (esign, r1) :=
              match r with
              | c2 :: r2 => if c2 = '-' then ((-1 : Int), r2)
                            else if c2 = '+' then ((1 : Int), r2)
                            else ((1 : Int), r)
              | [] => ((1 : Int), r)
            let (eds, r3) := takeDigitRun r1
            if eds = [] then none else some (esign * (natOfDigits eds : Int), r3)
          else some (0, s3)
        | [] => some (0, s3)
      match expPart with
      | none => none
      | some (e, s4) =>
        let mantissa : Int := (natOfDigits (ids ++ fds) : Int)
        let signed : Int := if neg then -mantissa else mantissa
        some (applyTenPow ((signed : ℚ) / (Nat.pow 10 fds.length : ℚ)) e, s4)

/-- Literal `true`. -/
def trueLit : List Char := ['t', 'r', 'u', 'e']

/-- Literal `false`. -/
def falseLit : List Char := ['f', 'a', 'l', 's', 'e']

/-- Literal `null`. -/
def nullLit : List Char := ['n', 'u', 'l', 'l']

mutual

/-- Parse one JSON value at the head of the input (no leading whitespace). -/
def parseVal : Nat → List Char → Option (JSValue × List Char)
  | 0, _ => none
  | Nat.succ f, s =>
    match s with
    | [] => none
    | c :: rest =>
      if c = quoteCh then (parseStringLit rest).map (fun p => (JSValue.str p.1, p.2))
      else if c = lbrace then parseObjBody f (skipJsonWS rest)
      else if c = lbrack then parseArrBody f (skipJsonWS rest)
      else if startsWithL trueLit s then some (JSValue.bool true, s.drop 4)
      else if startsWithL falseLit s then some (JSValue.bool false, s.drop 5)
      else if startsWithL nullLit s then some (JSValue.null, s.drop 4)
      else (parseNumLit s).map (fun p => (JSValue.num p.1, p.2))
termination_by structural f _ => f

/-- Parse an array body after `[` (whitespace already skipped). -/
def parseArrBody : Nat → List Char → Option (JSValue × List Char)
  | 0, _ => none
  | Nat.succ f, s =>
    match s with
    | [] => none
    | c :: rest =>
      if c = rbrack then some (JSValue.arr [], rest)
      else
        match parseVal f s with
        | none => none
        | some (v, r) => parseArrRest f [v] (skipJsonWS r)
termination_by structural f _ => f

/-- Parse `, value`* `]` after the first array element. -/
def parseArrRest : Nat → List JSValue → List Char → Option (JSValue × List Char)
  | 0, _, _ => none
  | Nat.succ f, acc, s =>
    match s with
    | [] => none
    | c :: rest =>
      if c = rbrack then some (JSValue.arr acc.reverse, rest)
      else if c = ',' then
        match parseVal f (skipJsonWS rest) with
        | none => none
        | some (v, r) => parseArrRest f (v :: acc) (skipJsonWS r)
      else none
termination_by structural f _ _ => f

/-- Parse an object body after the opening brace (whitespace skipped). -/
def parseObjBody : Nat → List Char → Option (JSValue × List Char)
  | 0, _ => none
  | Nat.succ f, s =>
    match s with
    | [] => none
    | c :: rest =>
      if c = rbrace then some (JSValue.obj [], rest)
      else
        match parseMember f s with
        | none => none
        | some (kv, r) => parseObjRest f [kv] (skipJsonWS r)
termination_by structural f _ => f

/-- Parse `, member`* and the closing brace after the first object member. -/
def parseObjRest : Nat → List (List Char × JSValue) → List Char →
    Option (JSValue × List Char)
  | 0, _, _ => none
  | Nat.succ f, acc, s =>
    match s with
    | [] => none
    | c :: rest =>
      if c = rbrace then some (JSValue.obj acc.reverse, rest)
      else if c = ',' then
        match parseMember f (skipJsonWS rest) with
        | none => none
        | some (kv, r) => parseObjRest f (kv :: acc) (skipJsonWS r)
      else none
termination_by structural f _ _ => f

/-- Parse one `"key": value` object member. -/
def parseMember : Nat → List Char → Option ((List Char × JSValue) × List Char)
  | 0, _ => none
  | Nat.succ f, s =>
    match s with
    | [] => none
    | c :: rest =>
      if c = quoteCh then
        match parseStringLit rest with
        | none => none
        | some (k, r1) =>
          match skipJsonWS r1 with
          | [] => none
          | c2 :: r2 =>
            if c2 = ':' then
              match parseVal f (skipJsonWS r2) with
              | none => none
              | some (v, r3) => some ((k, v), r3)
            else none
      else none
termination_by structural f _ => f

end

/-- `JSON.parse`: parse a complete JSON document, allowing surrounding
whitespace and rejecting trailing garbage; `none` models a thrown
`SyntaxError`. -/
def jsonParse (s : List Char) : Option JSValue :=
  match parseVal (3 * s.length + 9) (skipJsonWS s) with
  | some (v, rest) => if skipJsonWS rest = [] then some v else none
  | none => none

/-! ### JavaScript coercions on parsed values

`Option JSValue` models a possibly-`undefined` value; `Option ℚ` models a
JavaScript number where `none` is `NaN`. -/

/-- Last-binding-wins field lookup, as property access on a parsed object. -/
def lookupField (fields : List (List Char × JSValue)) (k : List Char) :
    Option JSValue :=
  match fields with
  | [] => none
  | (k0, v0) :: rest =>
    match lookupField rest k with
    | some v => some v
    | none => if k0 = k then some v0 else none

/-- Named property access `v.key` (`undefined` on arrays and primitives for
the names the routes use). -/
def jsGetField (v : JSValue) (k : List Char) : Option JSValue :=
  match v with
  | JSValue.obj fs => lookupField fs k
  | _ => none

/-- Indexed property access `v[i]`. -/
def jsIndexN (v : JSValue) (i : Nat) : Option JSValue :=
  match v with
  | JSValue.arr xs => xs.get? i
  | JSValue.obj fs => lookupField fs (Nat.toDigits 10 i)
  | JSValue.str s => (s.get? i).map (fun c => JSValue.str [c])
  | _ => none

/-- The `??` operator: take the right operand when the left is `null` or
`undefined`. -/
def jsCoalesce (a b : Option JSValue) : Option JSValue :=
  match a with
  | none => b
  | some JSValue.null => b
  | some v => some v

/-- JavaScript truthiness of a JSON-parsed value. -/
def truthy : JSValue → Bool
  | JSValue.null => false
  | JSValue.bool b => b
  | JSValue.num q => decide (q ≠ 0)
  | JSValue.str s => decide (s ≠ [])
  | JSValue.arr _ => true
  | JSValue.obj _ => true

/-- `typeof v === "object"` (true for objects, arrays and `null`). -/
def typeofIsObject : JSValue → Bool
  | JSValue.null => true
  | JSValue.arr _ => true
  | JSValue.obj _ => true
  | _ => false

/-- `Array.isArray`. -/
def isArrV : JSValue → Bool
  | JSValue.arr _ => true
  | _ => false

/-- `Number(string)`: trimmed empty text is 0; otherwise a signed decimal
literal with optional fraction and exponent.  (Hex, octal, binary and
`Infinity` forms are not modelled and behave as `NaN`.) -/
def numFromString (s : List Char) : Option ℚ :=
  let t := jsTrim s
  match t with
  | [] => some 0
  | _ =>
    let (neg, s1) :=
      match t with
      | c :: r => if c = '-' then (true, r) else if c = '+' then (false, r) else (false, t)
      | [] => (false, t)
    let (ids, s2) := takeDigitRun s1
    let (fds, s3) :=
      match s2 with
      | c :: r => if c = '.' then takeDigitRun r else ([], s2)
      | [] => ([], s2)
    if ids = [] && fds = [] then none
    else
      let expPart : Option (Int × List Char) :=
        match s3 with
        | c :: r =>
          if c = 'e' || c = 'E' then
            let (esign, r1) :=
              match r with
              | c2 :: r2 => if c2 = '-' then ((-1 : Int), r2)
                            else if c2 = '+' then ((1 : Int), r2)
                            else ((1 : Int), r)
              | [] => ((1 : Int), r)
            let (eds, r3) := takeDigitRun r1
            if eds = [] then none else some (esign * (natOfDigits eds : Int), r3)
          else some (0, s3)
        | [] => some (0, s3)
      match expPart with
      | none => none
      | some (e, s4) =>
        if s4 = [] then
          let mantissa : Int := (natOfDigits (ids ++ fds) : Int)
          let signed : Int := if neg then -mantissa else mantissa
          some (applyTenPow ((signed : ℚ) / (Nat.pow 10 fds.length : ℚ)) e)
        else none

/-- `Number(v)` on a JSON-parsed value.  Singleton arrays coerce through
their element as array-to-string does; booleans and objects inside an
array stringify to non-numeric text and give `NaN`. -/
def toNumberV : JSValue → Option ℚ
  | JSValue.null => some 0
  | JSValue.bool b => some (if b then 1 else 0)
  | JSValue.num q => some q
  | JSValue.str s => numFromString s
  | JSValue.arr [] => some 0
  | JSValue.arr [v] =>
    match v with
    | JSValue.bool _ => none
    | JSValue.obj _ => none
    | w => toNumberV w
  | JSValue.arr _ => none
  | JSValue.obj _ => none

/-- `Number(v)` where `v` may be `undefined` (`NaN`). -/
def toNumber (o : Option JSValue) : Option ℚ := o.bind toNumberV

/-- Truthiness of a possibly-`undefined` value. -/
def optTruthy (o : Option JSValue) : Bool :=
  match o with
  | some v => truthy v
  | none => false

/-- `Array.isArray` of a possibly-`undefined` value. -/
def optIsArr (o : Option JSValue) : Bool :=
  match o with
  | some v => isArrV v
  | none => false

/-- `typeof v === "object"` of a possibly-`undefined` value. -/
def optTypeofObject (o : Option JSValue) : Bool :=
  match o with
  | some v => typeofIsObject v
  | none => false

/-- Indexed access on a possibly-`undefined` value. -/
def optIndex (o : Option JSValue) (i : Nat) : Option JSValue :=
  o.bind (fun v => jsIndexN v i)

/-! ### The move data model -/

/-- A chess move as the routes produce it: two coordinate pairs.  The
coordinates are JavaScript numbers, kept as rationals; the extractor's
range guards are what confine them.  Equality is structural. -/
structure Move where
  fromSq : ℚ × ℚ
  toSq : ℚ × ℚ
deriving DecidableEq

/-- The extractor's coordinate guard `x >= 0 && x < 8`. -/
def inBoard (q : ℚ) : Bool := decide (0 ≤ q) && decide (q < 8)

/-! ### The move extractor `legalMoveFromResponse`

Embedded from the OpenRouter move route (the direct-provider route carries
a character-for-character copy of the same function).  Each regular
expression the function applies is modelled by a dedicated leftmost-match
scanner with the greedy/lazy extent worked out for that pattern. -/

/-- The literal `"from"` (with quotes) the object regexes require. -/
def fromNeedle : List Char := [quoteCh, 'f', 'r', 'o', 'm', quoteCh]

/-- The literal `"to"` (with quotes). -/
def toNeedle : List Char := [quoteCh, 't', 'o', quoteCh]

/-- The literal `"to":[`. -/
def toBracketNeedle : List Char := [quoteCh, 't', 'o', quoteCh, ':', lbrack]

/-- The literal `]` followed by the closing brace. -/
def closeNeedle : List Char := [rbrack, rbrace]

/-- Key names used by the accepted field layouts. -/
def fromKey : List Char := ['f', 'r', 'o', 'm']

/-- Key `to`. -/
def toKey : List Char := ['t', 'o']

/-- Key `row`. -/
def rowKey : List Char := ['r', 'o', 'w']

/-- Key `col`. -/
def colKey : List Char := ['c', 'o', 'l']

/-- Key `toRow`. -/
def toRowKey : List Char := ['t', 'o', 'R', 'o', 'w']

/-- Key `toCol`. -/
def toColKey : List Char := ['t', 'o', 'C', 'o', 'l']

/-- Does a brace-free run contain `"from"` and then `"to"` after it? -/
def hasFromThenTo (run : List Char) : Bool :=
  match indexOfSub fromNeedle run with
  | some p => containsSub toNeedle (run.drop (p + 6))
  | none => false

/-- Leftmost match of `/\{[^\x7b\x7d]*"from"[^\x7b\x7d]*"to"[^\x7b\x7d]*\}/`
(the braces written as classes here only for this comment): an opening
brace, a brace-free interior containing `"from"` then `"to"`, and the
closing brace, which is necessarily the first brace after the opener. -/
def findFromToObj : List Char → Option (List Char)
  | [] => none
  | c :: rest =>
    if c = lbrace then
      let run := rest.takeWhile (fun x => x ≠ lbrace && x ≠ rbrace)
      let after := rest.dropWhile (fun x => x ≠ lbrace && x ≠ rbrace)
      match after with
      | c2 :: _ =>
        if c2 = rbrace && hasFromThenTo run then some (lbrace :: (run ++ [rbrace]))
        else findFromToObj rest
      | [] => findFromToObj rest
    else findFromToObj rest

/-- Leftmost match of the lazy any-object pattern: the first opening brace
up to the first closing brace after it. -/
def findAnyObj : List Char → Option (List Char)
  | [] => none
  | c :: rest =>
    if c = lbrace then
      let inner := rest.takeWhile (fun x => x ≠ rbrace)
      let after := rest.dropWhile (fun x => x ≠ rbrace)
      match after with
      | _ :: _ => some (lbrace :: (inner ++ [rbrace]))
      | [] => none
    else findAnyObj rest

/-- Leftmost match of the unterminated-object pattern: an opening brace and
the maximal brace-free run after it, containing `"from"` then `"to"`. -/
def findFromToOpen : List Char → Option (List Char)
  | [] => none
  | c :: rest =>
    if c = lbrace then
      let run := rest.takeWhile (fun x => x ≠ lbrace && x ≠ rbrace)
      if hasFromThenTo run then some (lbrace :: run)
      else findFromToOpen rest
    else findFromToOpen rest

/-- Leftmost match of the repair pattern `"to":[` digits, optional comma,
whitespace, optional digits: the text before the match, the two digit
captures, and the text after the match. -/
def findToRepair : List Char → Option (List Char × List Char × List Char × List Char)
  | [] => none
  | c :: rest =>
    if startsWithL toBracketNeedle (c :: rest) then
      let t1 := (c :: rest).drop 6
      let (g1, t2) := takeDigitRun t1
      if g1 = [] then
        match findToRepair rest with
        | some (p, a, b, suf) => some (c :: p, a, b, suf)
        | none => none
      else
        let t3 :=
          match t2 with
          | c2 :: r2 => if c2 = ',' then r2 else t2
          | [] => t2
        let t4 := t3.dropWhile (fun x => isJsWS x)
        let (g2, t5) := takeDigitRun t4
        some ([], g1, g2, t5)
    else
      match findToRepair rest with
      | some (p, a, b, suf) => some (c :: p, a, b, suf)
      | none => none

/-- The truncated-object repair: take the unterminated match, and when it
opened a `to` array without the closing `]}`, rewrite the leftmost
`"to":[...` to a completed pair (a missing second coordinate becomes 0)
and append a closing brace. -/
def repairIncomplete (cleaned : List Char) : Option (List Char) :=
  match findFromToOpen cleaned with
  | none => none
  | some inc =>
    if containsSub toBracketNeedle inc && !containsSub closeNeedle inc then
      match findToRepair inc with
      | some (pre, g1, g2, _suf) =>
        let secondNum := if g2 = [] then ['0'] else g2
        some ((pre ++ toBracketNeedle ++ g1 ++ [','] ++ secondNum ++ [rbrack] ++ _suf)
          ++ [rbrace])
      | none => none
    else none

/-- The three accepted field layouts, in source order: `from`/`to` as
coordinate arrays; `from`/`to` as objects (or mixed) read through
`row ?? [0]` and `col ?? [1]`; or flat `row`/`col`/`toRow`/`toCol`.
The result carries the four `Number(...)` coercions, `none` being `NaN`. -/
def fmtPairs (parsed : JSValue) : Option ((Option ℚ × Option ℚ) × (Option ℚ × Option ℚ)) :=
  let pf := jsGetField parsed fromKey
  let pt := jsGetField parsed toKey
  if optIsArr pf && optIsArr pt then
    some ((toNumber (optIndex pf 0), toNumber (optIndex pf 1)),
          (toNumber (optIndex pt 0), toNumber (optIndex pt 1)))
  else if optTruthy pf && optTruthy pt && optTypeofObject pf && optTypeofObject pt then
    some ((toNumber (jsCoalesce (pf.bind (fun v => jsGetField v rowKey)) (optIndex pf 0)),
           toNumber (jsCoalesce (pf.bind (fun v => jsGetField v colKey)) (optIndex pf 1))),
          (toNumber (jsCoalesce (pt.bind (fun v => jsGetField v rowKey)) (optIndex pt 0)),
           toNumber (jsCoalesce (pt.bind (fun v => jsGetField v colKey)) (optIndex pt 1))))
  else if (jsGetField parsed rowKey).isSome && (jsGetField parsed colKey).isSome &&
          (jsGetField parsed toRowKey).isSome && (jsGetField parsed toColKey).isSome then
    some ((toNumber (jsGetField parsed rowKey), toNumber (jsGetField parsed colKey)),
          (toNumber (jsGetField parsed toRowKey), toNumber (jsGetField parsed toColKey)))
  else none

/-- The `try` block: `JSON.parse` the matched text, pick a field layout,
and return the move only when no coordinate is `NaN` and all four pass the
range guard.  `none` covers both a parse throw and a failed guard, either
of which falls through to the later layers. -/
def tryParseMove (js : List Char) : Option Move :=
  match jsonParse js with
  | none => none
  | some parsed =>
    match fmtPairs parsed with
    | none => none
    | some ((f1, f2), (t1, t2)) =>
      match f1, f2, t1, t2 with
      | some a, some b, some c, some d =>
        if inBoard a && inBoard b && inBoard c && inBoard d then
          some ⟨(a, b), (c, d)⟩
        else none
      | _, _, _, _ => none

/-- Match of `/"from"\s*:\s*\[\s*(\d+)\s*,\s*(\d+)\s*\]/` anchored at the
head of `s`: the two captured coordinates. -/
def matchFromAt (s : List Char) : Option (Nat × Nat) :=
  if startsWithL fromNeedle s then
    let t1 := (s.drop 6).dropWhile (fun x => isJsWS x)
    match t1 with
    | c :: r =>
      if c = ':' then
        let t2 := r.dropWhile (fun x => isJsWS x)
        match t2 with
        | c2 :: r2 =>
          if c2 = lbrack then
            let t3 := r2.dropWhile (fun x => isJsWS x)
            let (g1, t4) := takeDigitRun t3
            if g1 = [] then none
            else
              let t5 := t4.dropWhile (fun x => isJsWS x)
              match t5 with
              | c3 :: r3 =>
                if c3 = ',' then
                  let t6 := r3.dropWhile (fun x => isJsWS x)
                  let (g2, t7) := takeDigitRun t6
                  if g2 = [] then none
                  else
                    let t8 := t7.dropWhile (fun x => isJsWS x)
                    match t8 with
                    | c4 :: _ => if c4 = rbrack then some (natOfDigits g1, natOfDigits g2)
                                 else none
                    | [] => none
                else none
              | [] => none
          else none
        | [] => none
      else none
    | [] => none
  else none

/-- Leftmost occurrence of the `from` coordinate pattern. -/
def findFromPattern : List Char → Option (Nat × Nat)
  | [] => none
  | c :: rest =>
    match matchFromAt (c :: rest) with
    | some r => some r
    | none => findFromPattern rest

/-- Match of `/"to"\s*:\s*\[\s*(\d+)\s*,?\s*(\d*)\s*/` anchored at the head
of `s`: the matched text itself, the first coordinate, and the second
capture when it is non-empty. -/
def matchToAt (s : List Char) : Option (List Char × Nat × Option Nat) :=
  if startsWithL toNeedle s then
    let rest := s.drop 4
    let ws1 := rest.takeWhile (fun x => isJsWS x)
    let t1 := rest.dropWhile (fun x => isJsWS x)
    match t1 with
    | c :: r =>
      if c = ':' then
        let ws2 := r.takeWhile (fun x => isJsWS x)
        let t2 := r.dropWhile (fun x => isJsWS x)
        match t2 with
        | c2 :: r2 =>
          if c2 = lbrack then
            let ws3 := r2.takeWhile (fun x => isJsWS x)
            let t3 := r2.dropWhile (fun x => isJsWS x)
            let (g1, t4) := takeDigitRun t3
            if g1 = [] then none
            else
              let ws4 := t4.takeWhile (fun x => isJsWS x)
              let t5 := t4.dropWhile (fun x => isJsWS x)
              let (hasComma, t6) :=
                match t5 with
                | c3 :: r3 => if c3 = ',' then (true, r3) else (false, t5)
                | [] => (false, t5)
              let ws5 := t6.takeWhile (fun x => isJsWS x)
              let t7 := t6.dropWhile (fun x => isJsWS x)
              let (g2, t8) := takeDigitRun t7
              let ws6 := t8.takeWhile (fun x => isJsWS x)
              let matched := toNeedle ++ ws1 ++ [':'] ++ ws2 ++ [lbrack] ++ ws3 ++ g1 ++
                ws4 ++ (if hasComma then [','] else []) ++ ws5 ++ g2 ++ ws6
              some (matched, natOfDigits g1,
                if g2 = [] then none else some (natOfDigits g2))
          else none
        | [] => none
      else none
    | [] => none
  else none

/-- Leftmost occurrence of the `to` coordinate pattern. -/
def findToPattern : List Char → Option (List Char × Nat × Option Nat)
  | [] => none
  | c :: rest =>
    match matchToAt (c :: rest) with
    | some r => some r
    | none => findToPattern rest

/-- Leftmost `/(\d+)/` match as a number. -/
def firstDigitRun (s : List Char) : Option Nat :=
  let t := s.dropWhile (fun c => !isDigitCh c)
  match t with
  | [] => none
  | _ => some (natOfDigits (t.takeWhile (fun c => isDigitCh c)))

/-- Outcome of the regex-extraction layer: a move, an explicit `return
null` (which skips the bare-number layer), or falling through to it. -/
inductive RegexOutcome where
  | found (m : Move)
  | abort
  | fallthrough

/-- The regex-extraction layer over the cleaned text: the `from` pattern
and the `to` pattern must both occur; the three captured coordinates must
be in range; a missing second `to` coordinate is inferred from the next
number after the matched text, aborting (not falling through) when none in
range exists; a present but out-of-range second coordinate falls through. -/
def regexLayer (cleaned : List Char) : RegexOutcome :=
  match findFromPattern cleaned, findToPattern cleaned with
  | some (fr, fc), some (matched, tr, tcOpt) =>
    if fr < 8 && fc < 8 && tr < 8 then
      match tcOpt with
      | none =>
        match firstDigitRun (cleaned.drop
            ((indexOfSub matched cleaned).getD cleaned.length + matched.length)) with
        | some n =>
          if n < 8 then RegexOutcome.found ⟨((fr : ℚ), (fc : ℚ)), ((tr : ℚ), (n : ℚ))⟩
          else RegexOutcome.abort
        | none => RegexOutcome.abort
      | some tc =>
        if tc < 8 then RegexOutcome.found ⟨((fr : ℚ), (fc : ℚ)), ((tr : ℚ), (tc : ℚ))⟩
        else RegexOutcome.fallthrough
    else RegexOutcome.fallthrough
  | _, _ => RegexOutcome.fallthrough

/-- Helper of `digitRuns`: `cur` is the reversed digit run in progress. -/
def digitRunsAux (cur : List Char) : List Char → List (List Char)
  | [] => if cur = [] then [] else [cur.reverse]
  | c :: rest =>
    if isDigitCh c then digitRunsAux (c :: cur) rest
    else if cur = [] then digitRunsAux [] rest
    else cur.reverse :: digitRunsAux [] rest

/-- All maximal digit runs of the text, the global `/\d+/g` match list. -/
def digitRuns (s : List Char) : List (List Char) := digitRunsAux [] s

/-- The in-range numbers of the last-resort layer: the values of all digit
runs, filtered to [0,8). -/
def barNums (cleaned : List Char) : List Nat :=
  ((digitRuns cleaned).map natOfDigits).filter (fun n => 0 ≤ n && decide (n < 8))

/-- The last-resort layer: if the text holds at least three numbers overall
and at least three of them are in range, build a move from the first three
in-range numbers, the fourth defaulting to 0. -/
def bareNumberLayer (cleaned : List Char) : Option Move :=
  if 3 ≤ (digitRuns cleaned).length then
    if 3 ≤ (barNums cleaned).length then
      some ⟨(((barNums cleaned).getD 0 0 : ℚ), ((barNums cleaned).getD 1 0 : ℚ)),
            (((barNums cleaned).getD 2 0 : ℚ),
             ((if 4 ≤ (barNums cleaned).length then (barNums cleaned).getD 3 0 else 0 : Nat) : ℚ))⟩
    else none
  else none

/-- Three backticks. -/
def fenceLit : List Char := String.toList "\x60\x60\x60"

/-- Three backticks followed by `json`. -/
def fenceJsonLit : List Char := String.toList "\x60\x60\x60json"

/-- `replace(/\s*\x60\x60\x60$/, "")`: drop a trailing fence and the
whitespace run before it. -/
def stripFenceEnd (s : List Char) : List Char :=
  let r := s.reverse
  if startsWithL fenceLit r then ((r.drop 3).dropWhile (fun x => isJsWS x)).reverse
  else s

/-- The markdown-fence cleanup: an anchored leading `\x60\x60\x60json` (or
bare fence) with trailing whitespace is removed, then a trailing fence. -/
def stripFence (s : List Char) : List Char :=
  if startsWithL fenceJsonLit s then
    stripFenceEnd ((s.drop 7).dropWhile (fun x => isJsWS x))
  else if startsWithL fenceLit s then
    stripFenceEnd ((s.drop 3).dropWhile (fun x => isJsWS x))
  else s

/-- The JSON-candidate search: the complete-object pattern, then the lazy
any-object pattern, then the truncated-object repair. -/
def jsonCandidate (cleaned : List Char) : Option (List Char) :=
  match findFromToObj cleaned with
  | some m => some m
  | none =>
    match findAnyObj cleaned with
    | some m => some m
    | none => repairIncomplete cleaned

/-- The extractor's layers over the cleaned text: no candidate means
`null` without reaching the later layers; otherwise the
parse-and-validate path, then the regex layer, then the bare-number
layer. -/
def extractLayers (cleaned : List Char) : Option Move :=
  match jsonCandidate cleaned with
  | none => none
  | some js =>
    match tryParseMove js with
    | some mv => some mv
    | none =>
      match regexLayer cleaned with
      | RegexOutcome.found mv => some mv
      | RegexOutcome.abort => none
      | RegexOutcome.fallthrough => bareNumberLayer cleaned

/-- The move extractor of the move routes: clean the text, then run the
layered extraction. -/
def legalMoveFromResponse (text : String) : Option Move :=
  if text = "" then none
  else extractLayers (jsTrim (stripFence (jsTrim text.toList)))

/-! ### The turn orchestrator of the OpenRouter move route

The route's `while` loop is embedded with the provider and the rate-limit
decision abstracted to per-attempt inputs: `limit n` is the
`consumeRateLimit` verdict before attempt `n` (the live clock and the
process-wide bucket store sit behind it) and `provider n` is the raw
completion text of attempt `n`.  `rand` is the stream of `Math.random`
draws, reduced to the in-range index `Math.floor(r * length)` it produces,
modelled modulo the list length.  The route interns each legal move as its
JSON serialization in a `Set` and tests the candidate's serialization;
for the coordinate-pair move objects involved this is structural equality
on the four coordinates, which is how the check is modelled. -/

/-- Denial reasons of the rate limiter. -/
inductive RLReason where
  | requests
  | tokens
deriving DecidableEq

/-- Verdict of an admission check. -/
inductive RateLimitResult where
  | allowed
  | denied (retryAfterMs : Int) (reason : RLReason)
deriving DecidableEq

/-- The JSON body of a move response from the OpenRouter route (success or
fallback; `fallback`/`rateLimited` are absent-as-false in the source). -/
structure MoveResponse where
  move : Move
  attemptsUsed : Nat
  fallback : Bool
  rateLimited : Bool
deriving DecidableEq

/-- The route's fixed attempt bound. -/
def MAX_ATTEMPTS : Nat := 5

/-- `legalMoves[Math.floor(Math.random() * legalMoves.length)]` for a
random draw presented as an arbitrary natural number. -/
def randomLegalMove (moves : List Move) (r : Nat) : Move :=
  moves.getD (r % moves.length) ⟨(0, 0), (0, 0)⟩

/-- The `legalMoveSet.has(JSON.stringify(move))` membership test. -/
def legalSetHas (moves : List Move) (m : Move) : Bool :=
  moves.any (fun lm => lm = m)

/-- The `cleanContent` helper of the OpenRouter route (the direct-provider
route repeats the same lines inline): trim, and when the text starts with
a fence, drop the first and last line and trim again. -/
def cleanContent (raw : String) : List Char :=
  let trimmed := jsTrim raw.toList
  if !startsWithL fenceLit trimmed then trimmed
  else jsTrim (List.intercalate ['\n'] (((trimmed.splitOn '\n').drop 1).dropLast))

/-- The retry loop, structurally on the remaining attempts (`remaining =
MAX_ATTEMPTS - attempt` on entry).  Returns the response together with the
number of provider calls made. -/
def openRouterLoopAux (moves : List Move) (limit : Nat → RateLimitResult)
    (provider : Nat → String) (rand : Nat → Nat) :
    Nat → Nat → Nat → MoveResponse × Nat
  | 0, _attempt, calls =>
    (⟨randomLegalMove moves (rand 0), MAX_ATTEMPTS, true, false⟩, calls)
  | Nat.succ rem, attempt, calls =>
    match limit (attempt + 1) with
    | RateLimitResult.denied _ _ =>
      (⟨randomLegalMove moves (rand (attempt + 1)), (attempt + 1) - 1, true, true⟩, calls)
    | RateLimitResult.allowed =>
      match legalMoveFromResponse (String.mk (cleanContent (provider (attempt + 1)))) with
      | none => openRouterLoopAux moves limit provider rand rem (attempt + 1) (calls + 1)
      | some m =>
        if legalSetHas moves m then (⟨m, attempt + 1, false, false⟩, calls + 1)
        else openRouterLoopAux moves limit provider rand rem (attempt + 1) (calls + 1)

/-- The whole per-turn selection of the OpenRouter route (after request
validation): run the loop from attempt 0 with the full attempt budget. -/
def openRouterSelectMove (moves : List Move) (limit : Nat → RateLimitResult)
    (provider : Nat → String) (rand : Nat → Nat) : MoveResponse × Nat :=
  openRouterLoopAux moves limit provider rand MAX_ATTEMPTS 0 0

/-! ### The direct-provider move route (single shot) -/

/-- The direct-provider route after response normalization: clean the
content, extract a move, and return it only when the componentwise
legality check passes; `none` stands for the 422 error payloads. -/
def directProviderSelect (moves : List Move) (content : String) : Option Move :=
  match legalMoveFromResponse (String.mk (cleanContent content)) with
  | none => none
  | some m =>
    if moves.any (fun lm =>
        decide (lm.fromSq.1 = m.fromSq.1) && decide (lm.fromSq.2 = m.fromSq.2) &&
        decide (lm.toSq.1 = m.toSq.1) && decide (lm.toSq.2 = m.toSq.2)) then
      some m
    else none

/-! ### The llm-move route and its simpler extractor -/

/-- Leftmost match of the greedy `/\{[\s\S]*\}/`: the first opening brace
through the last closing brace. -/
def findGreedyObj (s : List Char) : Option (List Char) :=
  let fromFirst := s.dropWhile (fun c => c ≠ lbrace)
  match fromFirst with
  | [] => none
  | _ :: _ =>
    let tailRev := fromFirst.reverse.dropWhile (fun c => c ≠ rbrace)
    match tailRev with
    | [] => none
    | _ :: _ => some tailRev.reverse

/-- The llm-move route's own `legalMoveFromResponse`: greedy brace match,
`JSON.parse`, and acceptance of two length-2 `from`/`to` arrays, with no
`NaN` or range check; the four `Number(...)` results are returned as
possibly-`NaN` coordinates. -/
def legalMoveFromResponseBasic (text : String) :
    Option ((Option ℚ × Option ℚ) × (Option ℚ × Option ℚ)) :=
  match findGreedyObj text.toList with
  | none => none
  | some js =>
    match jsonParse js with
    | none => none
    | some parsed =>
      let pf := jsGetField parsed fromKey
      let pt := jsGetField parsed toKey
      if truthy parsed && optIsArr pf && optIsArr pt &&
          decide (optArrLen pf = 2) && decide (optArrLen pt = 2) then
        some ((toNumber (optIndex pf 0), toNumber (optIndex pf 1)),
              (toNumber (optIndex pt 0), toNumber (optIndex pt 1)))
      else none
where
  /-- `array.length` of a possibly-`undefined` value (0 otherwise). -/
  optArrLen (o : Option JSValue) : Nat :=
    match o with
    | some (JSValue.arr xs) => xs.length
    | _ => 0

/-- The llm-move route's componentwise legality check against the parsed,
possibly-`NaN` coordinates (`NaN === x` is false, so a `NaN` coordinate
can never match a legal move). -/
def llmMoveStructLegal (moves : List Move)
    (p : (Option ℚ × Option ℚ) × (Option ℚ × Option ℚ)) : Bool :=
  moves.any (fun lm =>
    decide (p.1.1 = some lm.fromSq.1) && decide (p.1.2 = some lm.fromSq.2) &&
    decide (p.2.1 = some lm.toSq.1) && decide (p.2.2 = some lm.toSq.2))

/-- The parsed coordinates as the move object the route returns (on the
legal path all four are numbers, so the `NaN` default is never taken). -/
def mvOfPairs (p : (Option ℚ × Option ℚ) × (Option ℚ × Option ℚ)) : Move :=
  ⟨(p.1.1.getD 0, p.1.2.getD 0), (p.2.1.getD 0, p.2.2.getD 0)⟩

/-- The llm-move route's move selection once legal moves exist: a parse
failure or an illegal move degrades to a random legal move, as do the
missing-credential and provider-error paths the route shares this shape
with. -/
def llmMoveSelect (moves : List Move) (content : String) (r : Nat) : Move :=
  match legalMoveFromResponseBasic content with
  | none => randomLegalMove moves r
  | some p =>
    if llmMoveStructLegal moves p then mvOfPairs p else randomLegalMove moves r

/-! ### The fixed-window rate limiter `consumeRateLimit`

Embedded from `rateLimit.ts`.  The per-key bucket the store holds is
threaded explicitly: `existing` is `store.get(key)` and the returned
bucket is what `store.set(key, bucket)` writes back (the source mutates
one object in place; the pre-check mutations are only the window reset).
Times and counts are integers in milliseconds; `tokensToConsume` is a
JavaScript number, floored and clamped as the source does. -/

/-- A per-key fixed-window bucket. -/
structure Bucket where
  windowStartMs : Int
  requests : Int
  tokens : Int
deriving DecidableEq

/-- One admission check (`windowMs` is the source's `params.windowMs ??
60_000` already resolved). -/
def consumeRateLimit (now windowMs maxRequestsPerWindow maxTokensPerWindow : Int)
    (tokensToConsume : ℚ) (existing : Option Bucket) : RateLimitResult × Bucket :=
  let bucket0 := existing.getD ⟨now, 0, 0⟩
  let bucket : Bucket :=
    if windowMs ≤ now - bucket0.windowStartMs then ⟨now, 0, 0⟩ else bucket0
  let nextRequests := bucket.requests + 1
  if maxRequestsPerWindow < nextRequests then
    (RateLimitResult.denied (max 0 (windowMs - (now - bucket.windowStartMs)))
      RLReason.requests, bucket)
  else
    let tok : Int := max 1 ⌊tokensToConsume⌋
    let nextTokens := bucket.tokens + tok
    if maxTokensPerWindow < nextTokens then
      (RateLimitResult.denied (max 0 (windowMs - (now - bucket.windowStartMs)))
        RLReason.tokens, bucket)
    else
      (RateLimitResult.allowed, ⟨bucket.windowStartMs, nextRequests, nextTokens⟩)

/-- The stored bucket for a key after `n` identical admission calls at one
instant, starting from an absent bucket. -/
def rlStateAfter (now windowMs maxReq maxTok : Int) (t : ℚ) : Nat → Option Bucket
  | 0 => none
  | Nat.succ k =>
    some (consumeRateLimit now windowMs maxReq maxTok t
      (rlStateAfter now windowMs maxReq maxTok t k)).2

/-! ### The models-listing operation `fetchOpenRouterModels`

Embedded from `openrouter.ts`, applied to the decoded JSON payload of the
list endpoint.  `localeCompare` under the default locale is modelled as
code-point comparison, and `toLowerCase` as the ASCII lowercase map; the
sort itself is a stable insertion sort, as `Array.prototype.sort` is
stable. -/

/-- One entry of the returned model list. -/
structure ModelEntry where
  id : String
  label : Option String
  provider : Option String
deriving DecidableEq

/-- Key `data`. -/
def dataKey : List Char := ['d', 'a', 't', 'a']

/-- Key `id`. -/
def idKey : List Char := ['i', 'd']

/-- Key `name`. -/
def nameKey : List Char := ['n', 'a', 'm', 'e']

/-- Key `description`. -/
def descriptionKey : List Char :=
  ['d', 'e', 's', 'c', 'r', 'i', 'p', 't', 'i', 'o', 'n']

/-- The per-entry mapper: a string `id` is required (an empty one is
falsy and drops the entry), the label is `name` or else a string
`description`, and the provider is the `org/` prefix of the id when one
exists. -/
def orExtractEntry (entry : JSValue) : Option ModelEntry :=
  let idC : List Char :=
    match jsGetField entry idKey with
    | some (JSValue.str s) => s
    | _ => []
  if idC = [] then none
  else
    let name : Option (List Char) :=
      match jsGetField entry nameKey with
      | some (JSValue.str s) => some s
      | _ =>
        match jsGetField entry descriptionKey with
        | some (JSValue.str s) => some s
        | _ => none
    let provider : Option (List Char) :=
      if containsSub ['/'] idC then some (idC.takeWhile (fun c => c ≠ '/'))
      else none
    some ⟨String.mk idC, name.map String.mk, provider.map String.mk⟩

/-- `toLowerCase` (ASCII). -/
def lowerStr (s : String) : String := String.mk (s.toList.map Char.toLower)

/-- `a.label || a.id`: the label unless it is absent or empty. -/
def labelOrId (e : ModelEntry) : String :=
  match e.label with
  | some s => if s = "" then e.id else s
  | none => e.id

/-- The comparator's primary key. -/
def sortKey1 (e : ModelEntry) : String := lowerStr (labelOrId e)

/-- The comparator's tiebreaker key. -/
def sortKey2 (e : ModelEntry) : String := lowerStr e.id

/-- The sort order of the comparator: by lowercased label-or-id, then by
lowercased id. -/
def modelLe (a b : ModelEntry) : Prop :=
  sortKey1 a < sortKey1 b ∨ (sortKey1 a = sortKey1 b ∧ sortKey2 a ≤ sortKey2 b)

instance : DecidableRel modelLe := fun a b => by
  unfold modelLe; infer_instance

instance : IsTotal ModelEntry modelLe where
  total a b := by
    unfold modelLe
    rcases lt_trichotomy (sortKey1 a) (sortKey1 b) with h | h | h
    · exact Or.inl (Or.inl h)
    · rcases le_total (sortKey2 a) (sortKey2 b) with h2 | h2
      · exact Or.inl (Or.inr ⟨h, h2⟩)
      · exact Or.inr (Or.inr ⟨h.symm, h2⟩)
    · exact Or.inr (Or.inl h)

instance : IsTrans ModelEntry modelLe where
  trans a b c hab hbc := by
    unfold modelLe at *
    rcases hab with h1 | ⟨e1, l1⟩
    · rcases hbc with h2 | ⟨e2, _⟩
      · exact Or.inl (h1.trans h2)
      · exact Or.inl (e2 ▸ h1)
    · rcases hbc with h2 | ⟨e2, l2⟩
      · exact Or.inl (e1 ▸ h2)
      · exact Or.inr ⟨e1.trans e2, l1.trans l2⟩

/-- The models-listing operation on a decoded list-endpoint payload: read
the `data` array, map and drop unusable entries, and sort with the
two-key comparator.  (No deduplication is performed.) -/
def fetchOpenRouterModels (payload : JSValue) : List ModelEntry :=
  let modelsRaw : List JSValue :=
    match jsGetField payload dataKey with
    | some (JSValue.arr xs) => xs
    | _ => []
  List.insertionSort modelLe (modelsRaw.filterMap orExtractEntry)

/-! ### The model-alias resolver of the direct-provider route -/

/-- `resolveModelAlias`: a falsy input (absent or empty) is returned as
is; otherwise the trimmed text, with the two Gemini aliases rewritten. -/
def resolveModelAlias (input : Option String) : Option String :=
  match input with
  | none => none
  | some s =>
    if s = "" then some s
    else
      let trimmed := String.mk (jsTrim s.toList)
      if trimmed = "gemini-3-pro" then some "gemini-3-pro-preview"
      else if trimmed = "gemini-3-flash" then some "gemini-2.5-flash"
      else some trimmed

/-! ## The claims -/

/-- Claim C5: the move extractor is a total function: for every input
string — malformed, truncated, fenced or arbitrary — it returns either a
structured move or `null`, never an exception (exceptions have no
representation in its `Option Move` result type: the one `JSON.parse`
call sits inside the `try` block, modelled by `jsonParse` returning
`none`). -/
theorem legalMoveFromResponse_total (s : String) :
    legalMoveFromResponse s = none ∨ ∃ m : Move, legalMoveFromResponse s = some m := by
  cases h : legalMoveFromResponse s with
  | none => exact Or.inl rfl
  | some m => exact Or.inr ⟨m, rfl⟩

/-- The truncated reply of the C8 scenario. -/
def c8input : String := "\x7b\"from\":[6,4],\"to\":[4,"

/-- The repaired object text the C8 scenario expects. -/
def c8repaired : String := "\x7b\"from\":[6,4],\"to\":[4,0]\x7d"

/-- Claim C8: on the truncated reply, the repair layer synthesizes the
missing closing bracket and brace with a defaulted second coordinate, and
the extractor returns the move (6,4)→(4,0). -/
theorem legalMoveFromResponse_repairs_truncated :
    repairIncomplete (String.toList c8input) = some (String.toList c8repaired) ∧
    legalMoveFromResponse c8input = some ⟨((6 : ℚ), 4), (4, 0)⟩ := by
  constructor
  · with_unfolding_all decide
  · with_unfolding_all decide

/-- Claim C10: the direct-provider route's model aliasing: after trimming,
exactly `gemini-3-pro` becomes `gemini-3-pro-preview` and exactly
`gemini-3-flash` becomes `gemini-2.5-flash`; every other supplied model
string is used as given, trimmed only. -/
theorem resolveModelAlias_spec (s : String) :
    resolveModelAlias (some s) = some (
      if String.mk (jsTrim s.toList) = "gemini-3-pro" then "gemini-3-pro-preview"
      else if String.mk (jsTrim s.toList) = "gemini-3-flash" then "gemini-2.5-flash"
      else String.mk (jsTrim s.toList)) := by
  unfold resolveModelAlias
  by_cases h : s = ""
  · subst h; with_unfolding_all decide
  · simp only [h, if_false]
    split_ifs <;> rfl

/-- The floor of the literal 500 over `ℚ`. -/
theorem floor_500 : (⌊(500 : ℚ)⌋ : Int) = 500 := by
  rw [show (500 : ℚ) = ((500 : ℤ) : ℚ) by norm_num, Int.floor_intCast]

/-- Claim C3 counterexample: a call that passes the request check and
fails the token check is denied with reason `tokens` and the full
remaining window, but the stored bucket still holds the OLD request count
(3, not 4): the tentative request increment is not committed. -/
theorem consumeRateLimit_tokens_cex :
    (consumeRateLimit 0 60000 10 100 500 (some ⟨0, 3, 0⟩)).1 =
      RateLimitResult.denied 60000 RLReason.tokens ∧
    ¬ ((consumeRateLimit 0 60000 10 100 500 (some ⟨0, 3, 0⟩)).2.requests = 3 + 1) := by
  have e : consumeRateLimit 0 60000 10 100 500 (some ⟨0, 3, 0⟩) =
      (RateLimitResult.denied 60000 RLReason.tokens, ⟨0, 3, 0⟩) := by
    unfold consumeRateLimit
    simp only [Option.getD_some, floor_500]
    decide
  rw [e]
  exact ⟨rfl, by norm_num⟩

/-- Claim C3 amended: when the request check passes and the token check
fails within the current window, the call is denied with reason `tokens`
and the remaining window time, and the stored bucket is left entirely
unchanged — neither the request count nor the token count moves. -/
theorem consumeRateLimit_tokens_denial (now windowMs maxReq maxTok : Int) (t : ℚ)
    (b : Bucket) (hwin : now - b.windowStartMs < windowMs)
    (hreq : b.requests + 1 ≤ maxReq)
    (htok : maxTok < b.tokens + max 1 ⌊t⌋) :
    consumeRateLimit now windowMs maxReq maxTok t (some b) =
      (RateLimitResult.denied (max 0 (windowMs - (now - b.windowStartMs)))
        RLReason.tokens, b) := by
  unfold consumeRateLimit
  simp only [Option.getD_some]
  rw [if_neg (not_le.mpr hwin), if_neg (not_lt.mpr hreq), if_pos htok]

/-- Witness for the amended C3 theorem at a concrete call. -/
theorem consumeRateLimit_tokens_denial_witness :
    consumeRateLimit 0 60000 10 100 500 (some ⟨0, 3, 0⟩) =
      (RateLimitResult.denied 60000 RLReason.tokens, ⟨0, 3, 0⟩) := by
  have h := consumeRateLimit_tokens_denial 0 60000 10 100 500 ⟨0, 3, 0⟩
    (by norm_num) (by norm_num) (by norm_num [floor_500])
  simpa using h

/-- The board-range guard in propositional form. -/
theorem inBoard_iff {q : ℚ} : inBoard q = true ↔ 0 ≤ q ∧ q < 8 := by
  unfold inBoard; simp

/-- Natural numbers below 8 pass the guard after the cast to `ℚ`. -/
theorem inBoard_natCast {n : Nat} (h : n < 8) : inBoard (n : ℚ) = true := by
  rw [inBoard_iff]
  exact ⟨by positivity, by exact_mod_cast h⟩

/-- A move accepted by the parse-and-validate layer passed the guard on
all four coordinates. -/
theorem tryParseMove_range {js : List Char} {m : Move}
    (h : tryParseMove js = some m) :
    inBoard m.fromSq.1 = true ∧ inBoard m.fromSq.2 = true ∧
    inBoard m.toSq.1 = true ∧ inBoard m.toSq.2 = true := by
  unfold tryParseMove at h
  split at h
  · exact absurd h (by simp)
  · split at h
    · exact absurd h (by simp)
    · split at h
      case _ a b c d =>
        split at h
        case isTrue hg =>
          injection h with h
          subst h
          simp only [Bool.and_eq_true] at hg
          obtain ⟨⟨⟨h1, h2⟩, h3⟩, h4⟩ := hg
          exact ⟨h1, h2, h3, h4⟩
        case isFalse => exact absurd h (by simp)
      all_goals exact absurd h (by simp)

/-- A move produced by the regex layer has all four coordinates below 8
(they are natural-number captures guarded individually). -/
theorem regexLayer_range {cleaned : List Char} {m : Move}
    (h : regexLayer cleaned = RegexOutcome.found m) :
    inBoard m.fromSq.1 = true ∧ inBoard m.fromSq.2 = true ∧
    inBoard m.toSq.1 = true ∧ inBoard m.toSq.2 = true := by
  unfold regexLayer at h
  split at h
  case _ fr fc matched tr tcOpt =>
    split at h
    case isTrue hg =>
      simp only [Bool.and_eq_true, decide_eq_true_eq] at hg
      split at h
      case _ =>
        split at h
        case _ n =>
          split at h
          case isTrue hn =>
            injection h with h
            subst h
            exact ⟨inBoard_natCast hg.1.1, inBoard_natCast hg.1.2,
              inBoard_natCast hg.2, inBoard_natCast hn⟩
          case isFalse => exact absurd h (by simp)
        case _ => exact absurd h (by simp)
      case _ tc =>
        split at h
        case isTrue htc =>
          injection h with h
          subst h
          exact ⟨inBoard_natCast hg.1.1, inBoard_natCast hg.1.2,
            inBoard_natCast hg.2, inBoard_natCast htc⟩
        case isFalse => exact absurd h (by simp)
    case isFalse => exact absurd h (by simp)
  case _ => exact absurd h (by simp)

/-- Every position of the range-filtered number list reads below 8 (the
default 0 included). -/
theorem getD_filter_lt (cleaned : List Char) (i : Nat) :
    (barNums cleaned).getD i 0 < 8 := by
  by_cases hi : i < (barNums cleaned).length
  · rw [List.getD_eq_getElem _ _ hi]
    have hm := List.getElem_mem hi
    have hp := List.of_mem_filter hm
    simp only [Bool.and_eq_true, decide_eq_true_eq] at hp
    exact hp.2
  · rw [List.getD_eq_default _ _ (Nat.le_of_not_lt hi)]
    norm_num

/-- A move from the bare-number layer is built from in-range numbers (or
the 0 default). -/
theorem bareNumberLayer_range {cleaned : List Char} {m : Move}
    (h : bareNumberLayer cleaned = some m) :
    inBoard m.fromSq.1 = true ∧ inBoard m.fromSq.2 = true ∧
    inBoard m.toSq.1 = true ∧ inBoard m.toSq.2 = true := by
  unfold bareNumberLayer at h
  split at h
  case isTrue =>
    split at h
    case isTrue =>
      injection h with h
      subst h
      refine ⟨inBoard_natCast (getD_filter_lt _ _), inBoard_natCast (getD_filter_lt _ _),
        inBoard_natCast (getD_filter_lt _ _), ?_⟩
      split
      · exact inBoard_natCast (getD_filter_lt _ _)
      · exact inBoard_natCast (by norm_num)
    case isFalse => exact absurd h (by simp)
  case isFalse => exact absurd h (by simp)

/-- The range property holds at every layer of the extraction. -/
theorem extractLayers_range {cleaned : List Char} {m : Move}
    (h : extractLayers cleaned = some m) :
    inBoard m.fromSq.1 = true ∧ inBoard m.fromSq.2 = true ∧
    inBoard m.toSq.1 = true ∧ inBoard m.toSq.2 = true := by
  unfold extractLayers at h
  split at h
  · exact absurd h (by simp)
  · split at h
    case _ mv heq =>
      injection h with h
      subst h
      exact tryParseMove_range heq
    case _ =>
      split at h
      case _ mv heq =>
        injection h with h
        subst h
        exact regexLayer_range heq
      case _ => exact absurd h (by simp)
      case _ => exact bareNumberLayer_range h

/-- Claim C6 amended: whenever the extractor returns a move, all four
coordinates are numbers in the half-open range [0,8) — at least 0 and
strictly below 8 — whichever layer produced the move.  (The closed
interval [0,7] of the original claim fails: a fractional coordinate such
as 7.5 passes the `< 8` guard; see the counterexample.) -/
theorem legalMoveFromResponse_range (s : String) (m : Move)
    (h : legalMoveFromResponse s = some m) :
    (0 ≤ m.fromSq.1 ∧ m.fromSq.1 < 8) ∧ (0 ≤ m.fromSq.2 ∧ m.fromSq.2 < 8) ∧
    (0 ≤ m.toSq.1 ∧ m.toSq.1 < 8) ∧ (0 ≤ m.toSq.2 ∧ m.toSq.2 < 8) := by
  have key : inBoard m.fromSq.1 = true ∧ inBoard m.fromSq.2 = true ∧
      inBoard m.toSq.1 = true ∧ inBoard m.toSq.2 = true := by
    unfold legalMoveFromResponse at h
    split at h
    · exact absurd h (by simp)
    · exact extractLayers_range h
  rw [inBoard_iff, inBoard_iff, inBoard_iff, inBoard_iff] at key
  exact key

/-- A reply whose coordinates include the fractional 7.5. -/
def c6input : String := "\x7b\"from\":[7.5,0],\"to\":[0,0]\x7d"

/-- Claim C6 counterexample: on a reply with coordinate 7.5 the extractor
returns a move, and its first coordinate is not in [0,7] (it is 7.5): the
guard is `< 8`, not `≤ 7`, and non-integral numbers pass it. -/
theorem legalMoveFromResponse_range_cex :
    ¬ (∀ (m : Move), legalMoveFromResponse c6input = some m →
        0 ≤ m.fromSq.1 ∧ m.fromSq.1 ≤ 7 ∧ 0 ≤ m.fromSq.2 ∧ m.fromSq.2 ≤ 7 ∧
        0 ≤ m.toSq.1 ∧ m.toSq.1 ≤ 7 ∧ 0 ≤ m.toSq.2 ∧ m.toSq.2 ≤ 7) := by
  intro hcl
  have e : legalMoveFromResponse c6input = some ⟨((15 : ℚ)/2, 0), (0, 0)⟩ := by
    with_unfolding_all decide
  have h2 := (hcl _ e).2.1
  norm_num at h2

/-- Witness for the amended C6 theorem at a well-formed reply. -/
theorem legalMoveFromResponse_range_witness :
    ((0 : ℚ) ≤ 6 ∧ (6 : ℚ) < 8) ∧ ((0 : ℚ) ≤ 4 ∧ (4 : ℚ) < 8) ∧
    ((0 : ℚ) ≤ 4 ∧ (4 : ℚ) < 8) ∧ ((0 : ℚ) ≤ 0 ∧ (0 : ℚ) < 8) := by
  exact legalMoveFromResponse_range c8repaired ⟨((6 : ℚ), 4), (4, 0)⟩
    (by with_unfolding_all decide)

/-- Claim C9 amended: the OpenRouter models listing is sorted by the
comparator (case-insensitively by label falling back to id, then by id)
for every payload; it is NOT deduplicated by id (see the
counterexample). -/
theorem fetchOpenRouterModels_sorted (payload : JSValue) :
    List.Sorted modelLe (fetchOpenRouterModels payload) := by
  unfold fetchOpenRouterModels
  exact List.sorted_insertionSort _ _

/-- A list payload carrying the same model id twice. -/
def c9payload : JSValue :=
  JSValue.obj [(dataKey, JSValue.arr
    [JSValue.obj [(idKey, JSValue.str ['a'])],
     JSValue.obj [(idKey, JSValue.str ['a'])]])]

/-- Claim C9 counterexample: the listing operation performs no
deduplication — a payload with a repeated id yields two entries with the
same id. -/
theorem fetchOpenRouterModels_dedup_cex :
    ¬ ((fetchOpenRouterModels c9payload).Pairwise (fun a b => a.id ≠ b.id)) := by
  intro h
  have e : fetchOpenRouterModels c9payload =
      [⟨"a", none, none⟩, ⟨"a", none, none⟩] := by with_unfolding_all decide
  rw [e] at h
  rcases h with _ | ⟨h1, _⟩
  exact (h1 ⟨"a", none, none⟩ (List.mem_singleton.mpr rfl)) rfl

/-! ### Membership helpers for the route theorems -/

/-- The random fallback pick is a member of a non-empty legal-move list. -/
theorem randomLegalMove_mem {moves : List Move} (hne : moves ≠ []) (r : Nat) :
    randomLegalMove moves r ∈ moves := by
  unfold randomLegalMove
  have hlen : 0 < moves.length := List.length_pos.mpr hne
  have hlt : r % moves.length < moves.length := Nat.mod_lt _ hlen
  rw [List.getD_eq_getElem _ _ hlt]
  exact List.getElem_mem hlt

/-- Passing the serialized-set membership test means structural list
membership. -/
theorem legalSetHas_mem {moves : List Move} {m : Move}
    (h : legalSetHas moves m = true) : m ∈ moves := by
  unfold legalSetHas at h
  simp only [List.any_eq_true, decide_eq_true_eq] at h
  obtain ⟨lm, hlm, rfl⟩ := h
  exact hlm

/-- Every exit of the OpenRouter retry loop yields a member of the legal
list: the success exit via the set test, the denial and exhaustion exits
via the random pick. -/
theorem openRouterLoopAux_mem {moves : List Move} (hne : moves ≠ [])
    (limit : Nat → RateLimitResult) (provider : Nat → String) (rand : Nat → Nat) :
    ∀ (rem attempt calls : Nat),
      (openRouterLoopAux moves limit provider rand rem attempt calls).1.move ∈ moves := by
  intro rem
  induction rem with
  | zero =>
    intro attempt calls
    exact randomLegalMove_mem hne _
  | succ rem ih =>
    intro attempt calls
    unfold openRouterLoopAux
    split
    · exact randomLegalMove_mem hne _
    · split
      · exact ih _ _
      · split
        · next hs => exact legalSetHas_mem hs
        · exact ih _ _

/-- A move the direct-provider route returns passed the componentwise
check against some legal move, which it therefore equals. -/
theorem directProviderSelect_mem {moves : List Move} {content : String} {m : Move}
    (h : directProviderSelect moves content = some m) : m ∈ moves := by
  unfold directProviderSelect at h
  split at h
  · exact absurd h (by simp)
  · next mv _ =>
    split at h
    · next hleg =>
      injection h with h
      subst h
      simp only [List.any_eq_true, Bool.and_eq_true, decide_eq_true_eq] at hleg
      obtain ⟨lm, hlm, ⟨⟨e1, e2⟩, e3⟩, e4⟩ := hleg
      rcases lm with ⟨⟨a1, a2⟩, a3, a4⟩
      rcases mv with ⟨⟨b1, b2⟩, b3, b4⟩
      simp only at e1 e2 e3 e4
      subst e1; subst e2; subst e3; subst e4
      exact hlm
    · exact absurd h (by simp)

/-- The llm-move route always returns a member of the legal list: the
parsed move only when it equals a legal move, a random pick otherwise. -/
theorem llmMoveSelect_mem {moves : List Move} (hne : moves ≠ [])
    (content : String) (r : Nat) :
    llmMoveSelect moves content r ∈ moves := by
  unfold llmMoveSelect
  split
  · exact randomLegalMove_mem hne _
  · next p _ =>
    split
    · next hleg =>
      simp only [llmMoveStructLegal, List.any_eq_true, Bool.and_eq_true,
        decide_eq_true_eq] at hleg
      obtain ⟨lm, hlm, ⟨⟨e1, e2⟩, e3⟩, e4⟩ := hleg
      have hpm : mvOfPairs p = lm := by
        rcases lm with ⟨⟨a1, a2⟩, a3, a4⟩
        simp only at e1 e2 e3 e4
        unfold mvOfPairs
        rw [e1, e2, e3, e4]
        rfl
      rw [hpm]
      exact hlm
    · exact randomLegalMove_mem hne _

/-- Claim C1: with a non-empty legal-move list, whenever a move-selection
route returns a move rather than an error payload, the move is a member
of the supplied list — the OpenRouter loop on all its exits (success via
the structural-equality set test, rate-limit denial and retry exhaustion
via the random pick), the direct-provider route via its componentwise
check, and the llm-move route on all its paths. -/
theorem routes_return_legal_moves (moves : List Move) (hne : moves ≠ [])
    (limit : Nat → RateLimitResult) (provider : Nat → String) (rand : Nat → Nat)
    (content : String) (r : Nat) :
    (openRouterSelectMove moves limit provider rand).1.move ∈ moves ∧
    (∀ m : Move, directProviderSelect moves content = some m → m ∈ moves) ∧
    llmMoveSelect moves content r ∈ moves :=
  ⟨openRouterLoopAux_mem hne limit provider rand MAX_ATTEMPTS 0 0,
   fun _ h => directProviderSelect_mem h,
   llmMoveSelect_mem hne content r⟩

/-- A single legal move for the C1 witness. -/
def w1moves : List Move := [⟨((6 : ℚ), 4), (5, 4)⟩]

/-- Witness for C1 at a concrete request. -/
theorem routes_return_legal_moves_witness :
    (openRouterSelectMove w1moves (fun _ => RateLimitResult.allowed)
      (fun _ => "") (fun _ => 0)).1.move ∈ w1moves ∧
    (∀ m : Move, directProviderSelect w1moves "" = some m → m ∈ w1moves) ∧
    llmMoveSelect w1moves "" 0 ∈ w1moves :=
  routes_return_legal_moves w1moves (by simp [w1moves]) _ _ _ "" 0

/-- The loop makes at most `rem` further provider calls. -/
theorem openRouterLoopAux_calls_le {moves : List Move}
    {limit : Nat → RateLimitResult} {provider : Nat → String} {rand : Nat → Nat} :
    ∀ (rem attempt calls : Nat),
      (openRouterLoopAux moves limit provider rand rem attempt calls).2 ≤ calls + rem := by
  intro rem
  induction rem with
  | zero => intro attempt calls; simp [openRouterLoopAux]
  | succ rem ih =>
    intro attempt calls
    unfold openRouterLoopAux
    split
    · simp
    · split
      · have := ih (attempt + 1) (calls + 1)
        omega
      · split
        · simp
        · have := ih (attempt + 1) (calls + 1)
          omega

/-- When every in-budget attempt is admitted but parses to nothing or to
an illegal move, the loop runs to exhaustion and returns the fixed
fallback record. -/
theorem openRouterLoopAux_all_fail {moves : List Move}
    {limit : Nat → RateLimitResult} {provider : Nat → String} {rand : Nat → Nat}
    (hfail : ∀ n, 1 ≤ n → n ≤ MAX_ATTEMPTS → limit n = RateLimitResult.allowed ∧
      ∀ m : Move, legalMoveFromResponse (String.mk (cleanContent (provider n))) = some m →
        legalSetHas moves m = false) :
    ∀ (rem attempt calls : Nat), attempt + rem = MAX_ATTEMPTS →
      (openRouterLoopAux moves limit provider rand rem attempt calls).1 =
        ⟨randomLegalMove moves (rand 0), MAX_ATTEMPTS, true, false⟩ := by
  intro rem
  induction rem with
  | zero => intro attempt calls _; rfl
  | succ rem ih =>
    intro attempt calls hsum
    obtain ⟨hallow, hbad⟩ := hfail (attempt + 1) (by omega) (by omega)
    unfold openRouterLoopAux
    split
    · next heq =>
      rw [hallow] at heq
      cases heq
    · split
      · exact ih (attempt + 1) (calls + 1) (by omega)
      · next m heq =>
        rw [hbad m heq]
        simp only [Bool.false_eq_true, if_false]
        exact ih (attempt + 1) (calls + 1) (by omega)

/-- Claim C2: the orchestrator makes at most `MAX_ATTEMPTS = 5` provider
calls per turn; and when every attempt ends in a parse failure or an
illegal move, it returns the fallback record — a random member of the
legal list, tagged `fallback: true`, with `attemptsUsed = MAX_ATTEMPTS`. -/
theorem openRouterSelectMove_attempts (moves : List Move) (hne : moves ≠ [])
    (limit : Nat → RateLimitResult) (provider : Nat → String) (rand : Nat → Nat) :
    (openRouterSelectMove moves limit provider rand).2 ≤ MAX_ATTEMPTS ∧
    ((∀ n, 1 ≤ n → n ≤ MAX_ATTEMPTS → limit n = RateLimitResult.allowed ∧
        ∀ m : Move, legalMoveFromResponse (String.mk (cleanContent (provider n))) = some m →
          legalSetHas moves m = false) →
      (openRouterSelectMove moves limit provider rand).1 =
        ⟨randomLegalMove moves (rand 0), MAX_ATTEMPTS, true, false⟩ ∧
      (openRouterSelectMove moves limit provider rand).1.move ∈ moves) := by
  constructor
  · simpa using openRouterLoopAux_calls_le MAX_ATTEMPTS 0 0
  · intro hfail
    exact ⟨openRouterLoopAux_all_fail hfail MAX_ATTEMPTS 0 0 rfl,
      openRouterLoopAux_mem hne limit provider rand MAX_ATTEMPTS 0 0⟩

/-- The two legal moves of the C2 scenario. -/
def c2moves : List Move := [⟨((6 : ℚ), 4), (5, 4)⟩, ⟨((6 : ℚ), 4), (4, 4)⟩]

/-- The illegal reply of attempts 1 through 4. -/
def c2illegal : String := "\x7b\"from\":[6,3],\"to\":[5,3]\x7d"

/-- The provider script of the C2 scenario: an illegal move four times,
then an unparsable reply. -/
def c2provider : Nat → String := fun n => if n ≤ 4 then c2illegal else "no move"

/-- Witness for C2 on the scenario script: fallback record with
`attemptsUsed = MAX_ATTEMPTS` and a legal move. -/
theorem openRouterSelectMove_attempts_witness :
    (openRouterSelectMove c2moves (fun _ => RateLimitResult.allowed) c2provider
      (fun _ => 0)).1 =
      ⟨randomLegalMove c2moves 0, MAX_ATTEMPTS, true, false⟩ ∧
    (openRouterSelectMove c2moves (fun _ => RateLimitResult.allowed) c2provider
      (fun _ => 0)).1.move ∈ c2moves := by
  have h := openRouterSelectMove_attempts c2moves (by simp [c2moves])
    (fun _ => RateLimitResult.allowed) c2provider (fun _ => 0)
  apply h.2
  intro n h1 h5
  refine ⟨rfl, ?_⟩
  intro m hm
  by_cases hn : n ≤ 4
  · have e : legalMoveFromResponse (String.mk (cleanContent (c2provider n))) =
        some ⟨((6 : ℚ), 3), (5, 3)⟩ := by
      simp only [c2provider, if_pos hn]
      with_unfolding_all decide
    rw [e] at hm
    injection hm with hm
    subst hm
    with_unfolding_all decide
  · have e : legalMoveFromResponse (String.mk (cleanContent (c2provider n))) = none := by
      simp only [c2provider, if_neg hn]
      with_unfolding_all decide
    rw [e] at hm
    exact absurd hm (by simp)

/-! ### The rate-limit window theorems (C4) -/

/-- Evaluation of an admitted in-window call. -/
theorem consumeRateLimit_allowed (now windowMs maxReq maxTok : Int) (t : ℚ) (b : Bucket)
    (hwin : now - b.windowStartMs < windowMs)
    (hreq : b.requests + 1 ≤ maxReq)
    (htok : b.tokens + max 1 ⌊t⌋ ≤ maxTok) :
    consumeRateLimit now windowMs maxReq maxTok t (some b) =
      (RateLimitResult.allowed, ⟨b.windowStartMs, b.requests + 1, b.tokens + max 1 ⌊t⌋⟩) := by
  unfold consumeRateLimit
  simp only [Option.getD_some]
  rw [if_neg (not_le.mpr hwin), if_neg (not_lt.mpr hreq), if_neg (not_lt.mpr htok)]

/-- Evaluation of the first call for a key (no bucket yet). -/
theorem consumeRateLimit_fresh (now windowMs maxReq maxTok : Int) (t : ℚ)
    (hw : 0 < windowMs) (hreq : 1 ≤ maxReq) (htok : max 1 ⌊t⌋ ≤ maxTok) :
    consumeRateLimit now windowMs maxReq maxTok t none =
      (RateLimitResult.allowed, ⟨now, 1, max 1 ⌊t⌋⟩) := by
  unfold consumeRateLimit
  simp only [Option.getD_none]
  rw [if_neg (show ¬ windowMs ≤ now - now by omega)]
  rw [if_neg (show ¬ maxReq < 0 + 1 by omega)]
  rw [if_neg (show ¬ maxTok < 0 + max 1 ⌊t⌋ by omega)]
  norm_num

/-- Evaluation of a call after the window has elapsed: reset, then
admit. -/
theorem consumeRateLimit_reset (now windowMs maxReq maxTok : Int) (t : ℚ) (b : Bucket)
    (hreset : windowMs ≤ now - b.windowStartMs) (_hw : 0 < windowMs)
    (hreq : 1 ≤ maxReq) (htok : max 1 ⌊t⌋ ≤ maxTok) :
    consumeRateLimit now windowMs maxReq maxTok t (some b) =
      (RateLimitResult.allowed, ⟨now, 1, max 1 ⌊t⌋⟩) := by
  unfold consumeRateLimit
  simp only [Option.getD_some]
  rw [if_pos hreset]
  rw [if_neg (show ¬ maxReq < 0 + 1 by omega)]
  rw [if_neg (show ¬ maxTok < 0 + max 1 ⌊t⌋ by omega)]
  norm_num

/-- Evaluation of an in-window call over the request budget. -/
theorem consumeRateLimit_req_denied (now windowMs maxReq maxTok : Int) (t : ℚ) (b : Bucket)
    (hwin : now - b.windowStartMs < windowMs)
    (hreq : maxReq < b.requests + 1) :
    consumeRateLimit now windowMs maxReq maxTok t (some b) =
      (RateLimitResult.denied (max 0 (windowMs - (now - b.windowStartMs)))
        RLReason.requests, b) := by
  unfold consumeRateLimit
  simp only [Option.getD_some]
  rw [if_neg (not_le.mpr hwin), if_pos hreq]

/-- The bucket state after `k ≤ N` admitted calls at one instant: `k`
requests and `k` times the per-call token cost. -/
theorem rlStateAfter_eq (now windowMs maxTok : Int) (t : ℚ) (N : Nat)
    (hw : 0 < windowMs) (htok : (N : Int) * max 1 ⌊t⌋ ≤ maxTok) :
    ∀ k : Nat, k ≤ N →
      rlStateAfter now windowMs (N : Int) maxTok t k =
        if k = 0 then none else some ⟨now, (k : Int), (k : Int) * max 1 ⌊t⌋⟩ := by
  have htok1 : (1 : Int) ≤ max 1 ⌊t⌋ := le_max_left 1 _
  intro k
  induction k with
  | zero => intro _; rfl
  | succ k ih =>
    intro hk
    have hstate := ih (by omega)
    have hkN : ((k : Int) + 1) * max 1 ⌊t⌋ ≤ (N : Int) * max 1 ⌊t⌋ := by
      apply mul_le_mul_of_nonneg_right _ (by omega)
      exact_mod_cast hk
    show some (consumeRateLimit now windowMs (N : Int) maxTok t
      (rlStateAfter now windowMs (N : Int) maxTok t k)).2 = _
    rw [hstate]
    by_cases hk0 : k = 0
    · subst hk0
      rw [if_pos rfl]
      rw [consumeRateLimit_fresh now windowMs (N : Int) maxTok t hw
        (by exact_mod_cast hk) (by nlinarith)]
      rw [if_neg (Nat.succ_ne_zero 0)]
      simp
    · rw [if_neg hk0]
      rw [consumeRateLimit_allowed now windowMs (N : Int) maxTok t _
        (show now - (⟨now, (k : Int), (k : Int) * max 1 ⌊t⌋⟩ : Bucket).windowStartMs <
            windowMs from by show now - now < windowMs; omega)
        (show (⟨now, (k : Int), (k : Int) * max 1 ⌊t⌋⟩ : Bucket).requests + 1 ≤ (N : Int)
          from by show (k : Int) + 1 ≤ (N : Int); exact_mod_cast hk)
        (show (⟨now, (k : Int), (k : Int) * max 1 ⌊t⌋⟩ : Bucket).tokens + max 1 ⌊t⌋ ≤ maxTok
          from by
            show (k : Int) * max 1 ⌊t⌋ + max 1 ⌊t⌋ ≤ maxTok
            nlinarith)]
      rw [if_neg (Nat.succ_ne_zero k)]
      simp only [Option.some.injEq, Bucket.mk.injEq]
      refine ⟨trivial, by push_cast; ring, by push_cast; ring⟩

/-- Claim C4: with `maxRequestsPerWindow = N` and a token budget the `N`
calls never exhaust, the first `N` admission calls in one window are
allowed; the `(N+1)`-th is denied with reason `requests`, the full window
as `retryAfterMs`, and the token count untouched; and a call made once
the window has elapsed since `windowStart` is allowed again with both
counts reset (and this call's consumption recorded). -/
theorem consumeRateLimit_window_spec (now windowMs maxTok : Int) (t : ℚ) (N : Nat)
    (now2 : Int) (hw : 0 < windowMs) (hN : 1 ≤ N)
    (htok : (N : Int) * max 1 ⌊t⌋ ≤ maxTok) (h2 : now + windowMs ≤ now2) :
    (∀ k : Nat, k < N →
      (consumeRateLimit now windowMs (N : Int) maxTok t
        (rlStateAfter now windowMs (N : Int) maxTok t k)).1 = RateLimitResult.allowed) ∧
    (consumeRateLimit now windowMs (N : Int) maxTok t
        (rlStateAfter now windowMs (N : Int) maxTok t N) =
      (RateLimitResult.denied windowMs RLReason.requests,
        ⟨now, (N : Int), (N : Int) * max 1 ⌊t⌋⟩)) ∧
    (consumeRateLimit now2 windowMs (N : Int) maxTok t
        (some ⟨now, (N : Int), (N : Int) * max 1 ⌊t⌋⟩) =
      (RateLimitResult.allowed, ⟨now2, 1, max 1 ⌊t⌋⟩)) := by
  have htok1 : (1 : Int) ≤ max 1 ⌊t⌋ := le_max_left 1 _
  have hN1 : (1 : Int) ≤ (N : Int) := by exact_mod_cast hN
  refine ⟨?_, ?_, ?_⟩
  · intro k hk
    rw [rlStateAfter_eq now windowMs maxTok t N hw htok k (by omega)]
    have hkN : ((k : Int) + 1) * max 1 ⌊t⌋ ≤ (N : Int) * max 1 ⌊t⌋ := by
      apply mul_le_mul_of_nonneg_right _ (by omega)
      have : (k : Int) + 1 ≤ (N : Int) := by exact_mod_cast hk
      omega
    by_cases hk0 : k = 0
    · subst hk0
      rw [if_pos rfl]
      rw [consumeRateLimit_fresh now windowMs (N : Int) maxTok t hw hN1 (by nlinarith)]
    · rw [if_neg hk0]
      rw [consumeRateLimit_allowed now windowMs (N : Int) maxTok t _
        (show now - (⟨now, (k : Int), (k : Int) * max 1 ⌊t⌋⟩ : Bucket).windowStartMs <
            windowMs from by show now - now < windowMs; omega)
        (show (⟨now, (k : Int), (k : Int) * max 1 ⌊t⌋⟩ : Bucket).requests + 1 ≤ (N : Int)
          from by
            show (k : Int) + 1 ≤ (N : Int)
            have : (k : Int) + 1 ≤ (N : Int) := by exact_mod_cast hk
            omega)
        (show (⟨now, (k : Int), (k : Int) * max 1 ⌊t⌋⟩ : Bucket).tokens + max 1 ⌊t⌋ ≤ maxTok
          from by
            show (k : Int) * max 1 ⌊t⌋ + max 1 ⌊t⌋ ≤ maxTok
            nlinarith)]
  · rw [rlStateAfter_eq now windowMs maxTok t N hw htok N le_rfl]
    rw [if_neg (by omega : ¬ N = 0)]
    rw [consumeRateLimit_req_denied now windowMs (N : Int) maxTok t _
      (show now - (⟨now, (N : Int), (N : Int) * max 1 ⌊t⌋⟩ : Bucket).windowStartMs <
          windowMs from by show now - now < windowMs; omega)
      (show (N : Int) < (⟨now, (N : Int), (N : Int) * max 1 ⌊t⌋⟩ : Bucket).requests + 1
        from by show (N : Int) < (N : Int) + 1; omega)]
    have e : max 0 (windowMs - (now -
        (⟨now, (N : Int), (N : Int) * max 1 ⌊t⌋⟩ : Bucket).windowStartMs)) = windowMs := by
      show max 0 (windowMs - (now - now)) = windowMs
      omega
    rw [e]
  · exact consumeRateLimit_reset now2 windowMs (N : Int) maxTok t _
      (show windowMs ≤ now2 - (⟨now, (N : Int), (N : Int) * max 1 ⌊t⌋⟩ : Bucket).windowStartMs
        from by show windowMs ≤ now2 - now; omega)
      hw hN1 (by nlinarith)

/-- Witness for C4 at `N = 2`, five tokens per call, a 60 s window. -/
theorem consumeRateLimit_window_spec_witness :
    (consumeRateLimit 0 60000 2 100 5
        (rlStateAfter 0 60000 2 100 5 1)).1 = RateLimitResult.allowed ∧
    consumeRateLimit 0 60000 2 100 5 (rlStateAfter 0 60000 2 100 5 2) =
      (RateLimitResult.denied 60000 RLReason.requests, ⟨0, 2, 2 * max 1 ⌊(5 : ℚ)⌋⟩) ∧
    consumeRateLimit 60000 60000 2 100 5 (some ⟨0, 2, 2 * max 1 ⌊(5 : ℚ)⌋⟩) =
      (RateLimitResult.allowed, ⟨60000, 1, max 1 ⌊(5 : ℚ)⌋⟩) := by
  have h := consumeRateLimit_window_spec 0 60000 100 5 2 60000 (by norm_num)
    (by norm_num) ?ht (by norm_num)
  case ht =>
    have : (⌊(5 : ℚ)⌋ : Int) = 5 := by
      rw [show (5 : ℚ) = ((5 : ℤ) : ℚ) by norm_num, Int.floor_intCast]
    rw [this]; norm_num
  exact ⟨h.1 1 (by norm_num), by simpa using h.2.1, by simpa using h.2.2⟩

/-! ### The serialization round trip (C7)

The serialization of a coordinate move in the `{"from":[r,c],"to":[r,c]}`
text form, and the proof that the extractor inverts it for single-digit
coordinates.  The proof is symbolic in the four digit characters, with
the per-digit branch decisions settled by the fact bundle below. -/

/-- The digit character of a single-digit number. -/
def dChar (a : Nat) : Char := Char.ofNat (48 + a)

/-- Serialized text up to the first coordinate. -/
def serHead : List Char := [lbrace, quoteCh, 'f', 'r', 'o', 'm', quoteCh, ':', lbrack]

/-- Serialized text between the coordinate pairs. -/
def serMid : List Char := [rbrack, ',', quoteCh, 't', 'o', quoteCh, ':', lbrack]

/-- Serialized closing text. -/
def serTail : List Char := [rbrack, rbrace]

/-- The `{"from":[r,c],"to":[r,c]}` text form of a coordinate move. -/
def serializeNatMove (a b c d : Nat) : String :=
  String.mk (serHead ++ Nat.toDigits 10 a ++ [','] ++ Nat.toDigits 10 b ++
    serMid ++ Nat.toDigits 10 c ++ [','] ++ Nat.toDigits 10 d ++ serTail)

/-- Single-digit coordinates render as their digit character. -/
theorem toDigits_single (a : Nat) (ha : a ≤ 7) : Nat.toDigits 10 a = [dChar a] := by
  interval_cases a <;> decide

/-- The branch decisions a digit character settles in the extractor. -/
theorem digitFacts (a : Nat) (ha : a ≤ 7) :
    isDigitCh (dChar a) = true ∧
    isJsWS (dChar a) = false ∧
    isJsonWS (dChar a) = false ∧
    ¬ (dChar a = lbrace) ∧
    ¬ (dChar a = rbrace) ∧
    ¬ (dChar a = quoteCh) ∧
    ¬ (dChar a = lbrack) ∧
    ¬ (dChar a = rbrack) ∧
    ¬ (dChar a = ',') ∧
    ¬ (dChar a = ':') ∧
    ¬ (dChar a = '-') ∧
    (quoteCh == dChar a) = false ∧
    ('t' == dChar a) = false ∧
    ('f' == dChar a) = false ∧
    ('n' == dChar a) = false ∧
    natOfDigits [dChar a] = a := by
  interval_cases a <;> decide

/-- `applyTenPow` at exponent 0. -/
theorem applyTenPow_zero (q : ℚ) : applyTenPow q 0 = q * (Nat.pow 10 0 : ℚ) := rfl

/-- A single digit followed by a non-numeric character parses as that
digit's value, consuming only the digit. -/
theorem parseNumLit_digit (a : Nat) (ha : a ≤ 7) (c : Char) (r : List Char)
    (hc1 : isDigitCh c = false) (hc2 : ¬ (c = '.'))
    (hc3 : ¬ (c = 'e')) (hc4 : ¬ (c = 'E')) :
    parseNumLit (dChar a :: c :: r) = some (((a : Nat) : ℚ), c :: r) := by
  interval_cases a <;>
    simp +decide [parseNumLit, takeDigitRun, dChar, hc1, hc2, hc3, hc4,
      applyTenPow_zero, natOfDigits]

end LlmChess

namespace LlmChess

/-- The serialized character list symbolically in the four digit
characters. -/
def serList (w x y z : Char) : List Char :=
  [lbrace, quoteCh, 'f', 'r', 'o', 'm', quoteCh, ':', lbrack, w, ',', x, rbrack, ',',
   quoteCh, 't', 'o', quoteCh, ':', lbrack, y, ',', z, rbrack, rbrace]

/-- The serialization unfolds to `serList` of the digit characters. -/
theorem serializeNatMove_toList (a b c d : Nat)
    (ha : a ≤ 7) (hb : b ≤ 7) (hc : c ≤ 7) (hd : d ≤ 7) :
    (serializeNatMove a b c d).toList = serList (dChar a) (dChar b) (dChar c) (dChar d) := by
  simp [serializeNatMove, toDigits_single a ha, toDigits_single b hb,
    toDigits_single c hc, toDigits_single d hd, serHead, serMid, serTail, serList]

end LlmChess

namespace LlmChess

/-- A pair of single digits between brackets parses as a two-element
numeric array, for any spare fuel. -/
theorem parseArr_pair (a b : Nat) (ha : a ≤ 7) (hb : b ≤ 7) (f : Nat) (rest : List Char) :
    parseArrBody f.succ.succ.succ (dChar a :: ',' :: dChar b :: rbrack :: rest) =
      some (JSValue.arr [JSValue.num ((a : Nat) : ℚ), JSValue.num ((b : Nat) : ℚ)], rest) := by
  obtain ⟨fa1, fa2, fa3, fa4, fa5, fa6, fa7, fa7b, fa7c, fa7d, fa8, fa9, fa10, fa11, fa12, fa13⟩ := digitFacts a ha
  obtain ⟨fb1, fb2, fb3, fb4, fb5, fb6, fb7, fb7b, fb7c, fb7d, fb8, fb9, fb10, fb11, fb12, fb13⟩ := digitFacts b hb
  have hNa := parseNumLit_digit a ha ',' (dChar b :: rbrack :: rest)
    (by decide) (by decide) (by decide) (by decide)
  have hNb := parseNumLit_digit b hb rbrack rest
    (by decide) (by decide) (by decide) (by decide)
  simp +decide only [parseArrBody, parseVal, parseArrRest, skipJsonWS,
    List.dropWhile_cons,
    fa3, fa4, fa5, fa6, fa7, fa7b, fa7c, fa7d, fa8, fa9, fa10, fa11, fa12,
    fb3, fb4, fb5, fb6, fb7, fb7b, fb7c, fb7d, fb8, fb9, fb10, fb11, fb12,
    startsWithL, List.isPrefixOf, trueLit, falseLit, nullLit,
    Bool.false_and, Bool.true_and, Bool.and_false, Bool.and_true,
    List.reverse_cons, List.reverse_nil, List.nil_append, List.cons_append,
    if_true, if_false, Option.map_some, Option.map_none,
    Option.map_some', Option.map_none',
    hNa, hNb]

end LlmChess

namespace LlmChess

/-- The `"from": [a, b]` member parses to the key and the coordinate
array. -/
theorem parseMember_from (a b : Nat) (ha : a ≤ 7) (hb : b ≤ 7) (f : Nat) (rest : List Char) :
    parseMember f.succ.succ.succ.succ.succ
      (quoteCh :: 'f' :: 'r' :: 'o' :: 'm' :: quoteCh :: ':' :: lbrack ::
        dChar a :: ',' :: dChar b :: rbrack :: rest) =
      some ((['f', 'r', 'o', 'm'],
        JSValue.arr [JSValue.num ((a : Nat) : ℚ), JSValue.num ((b : Nat) : ℚ)]), rest) := by
  obtain ⟨fa1, fa2, fa3, fa4, fa5, fa6, fa7, fa7b, fa7c, fa7d, fa8, fa9, fa10, fa11, fa12, fa13⟩ := digitFacts a ha
  have harr := parseArr_pair a b ha hb f rest
  simp +decide only [parseMember, parseVal, parseStringLit, skipJsonWS,
    List.dropWhile_cons, unescapeCh, fa3, fa4, fa5, fa6, fa7, fa7b, fa7c, fa7d,
    if_true, if_false, Option.map_some, Option.map_none, Option.map_some', Option.map_none',
    harr]

/-- The `"to": [c, d]` member parses to the key and the coordinate
array. -/
theorem parseMember_to (a b : Nat) (ha : a ≤ 7) (hb : b ≤ 7) (f : Nat) (rest : List Char) :
    parseMember f.succ.succ.succ.succ.succ
      (quoteCh :: 't' :: 'o' :: quoteCh :: ':' :: lbrack ::
        dChar a :: ',' :: dChar b :: rbrack :: rest) =
      some ((['t', 'o'],
        JSValue.arr [JSValue.num ((a : Nat) : ℚ), JSValue.num ((b : Nat) : ℚ)]), rest) := by
  obtain ⟨fa1, fa2, fa3, fa4, fa5, fa6, fa7, fa7b, fa7c, fa7d, fa8, fa9, fa10, fa11, fa12, fa13⟩ := digitFacts a ha
  have harr := parseArr_pair a b ha hb f rest
  simp +decide only [parseMember, parseVal, parseStringLit, skipJsonWS,
    List.dropWhile_cons, unescapeCh, fa3, fa4, fa5, fa6, fa7, fa7b, fa7c, fa7d,
    if_true, if_false, Option.map_some, Option.map_none, Option.map_some', Option.map_none',
    harr]

end LlmChess

namespace LlmChess

/-- The serialized move text parses as the two-member object, with any
spare fuel. -/
theorem parseVal_serList (a b c d : Nat)
    (ha : a ≤ 7) (hb : b ≤ 7) (hc : c ≤ 7) (hd : d ≤ 7) (f : Nat) :
    parseVal f.succ.succ.succ.succ.succ.succ.succ.succ
      (serList (dChar a) (dChar b) (dChar c) (dChar d)) =
      some (JSValue.obj
        [(['f', 'r', 'o', 'm'],
          JSValue.arr [JSValue.num ((a : Nat) : ℚ), JSValue.num ((b : Nat) : ℚ)]),
         (['t', 'o'],
          JSValue.arr [JSValue.num ((c : Nat) : ℚ), JSValue.num ((d : Nat) : ℚ)])], []) := by
  have hm1 := parseMember_from a b ha hb f.succ
    (',' :: quoteCh :: 't' :: 'o' :: quoteCh :: ':' :: lbrack ::
      dChar c :: ',' :: dChar d :: rbrack :: rbrace :: [])
  have hm2 := parseMember_to c d hc hd f (rbrace :: [])
  simp +decide only [serList, parseVal, parseObjBody, parseObjRest, skipJsonWS,
    List.dropWhile_cons,
    if_true, if_false, Option.map_some, Option.map_none, Option.map_some', Option.map_none',
    List.reverse_cons, List.reverse_nil, List.nil_append, List.cons_append,
    hm1, hm2]

/-- `JSON.parse` inverts the serialization of a single-digit coordinate
move. -/
theorem jsonParse_serList (a b c d : Nat)
    (ha : a ≤ 7) (hb : b ≤ 7) (hc : c ≤ 7) (hd : d ≤ 7) :
    jsonParse (serList (dChar a) (dChar b) (dChar c) (dChar d)) =
      some (JSValue.obj
        [(['f', 'r', 'o', 'm'],
          JSValue.arr [JSValue.num ((a : Nat) : ℚ), JSValue.num ((b : Nat) : ℚ)]),
         (['t', 'o'],
          JSValue.arr [JSValue.num ((c : Nat) : ℚ), JSValue.num ((d : Nat) : ℚ)])]) := by
  have hlen : 3 * (serList (dChar a) (dChar b) (dChar c) (dChar d)).length + 9 =
      Nat.succ (Nat.succ (Nat.succ (Nat.succ (Nat.succ (Nat.succ (Nat.succ (Nat.succ 76))))))) := by
    simp [serList]
  have hskip : skipJsonWS (serList (dChar a) (dChar b) (dChar c) (dChar d)) =
      serList (dChar a) (dChar b) (dChar c) (dChar d) := by
    simp +decide [serList, skipJsonWS, List.dropWhile_cons]
  have hmain := parseVal_serList a b c d ha hb hc hd 76
  unfold jsonParse
  rw [hskip, hlen, hmain]
  simp [skipJsonWS]

end LlmChess

namespace LlmChess

/-- The cleanup passes leave the serialized text unchanged. -/
theorem cleanup_serList (w x y z : Char) :
    jsTrim (stripFence (jsTrim (serList w x y z))) = serList w x y z := by
  simp +decide [serList, jsTrim, stripFence, stripFenceEnd, fenceLit, fenceJsonLit,
    startsWithL, List.isPrefixOf, List.dropWhile_cons, List.reverse_cons, List.reverse_nil,
    List.cons_append, List.nil_append]

end LlmChess

namespace LlmChess

/-- The complete-object regex finds the whole serialized text. -/
theorem findFromToObj_serList (w x y z : Char)
    (hw1 : ¬ (w = lbrace)) (hw2 : ¬ (w = rbrace)) (hw3 : (quoteCh == w) = false)
    (hx1 : ¬ (x = lbrace)) (hx2 : ¬ (x = rbrace)) (hx3 : (quoteCh == x) = false)
    (hy1 : ¬ (y = lbrace)) (hy2 : ¬ (y = rbrace))
    (hz1 : ¬ (z = lbrace)) (hz2 : ¬ (z = rbrace)) :
    findFromToObj (serList w x y z) = some (serList w x y z) := by
  simp +decide [serList, findFromToObj, hasFromThenTo, fromNeedle, toNeedle,
    indexOfSub, containsSub, startsWithL, List.isPrefixOf,
    List.takeWhile_cons, List.dropWhile_cons, List.takeWhile_nil, List.dropWhile_nil,
    hw1, hw2, hw3, hx1, hx2, hx3, hy1, hy2, hz1, hz2,
    List.cons_append, List.nil_append]

end LlmChess

namespace LlmChess

/-- The parse-and-validate layer inverts the serialization. -/
theorem tryParseMove_serList (a b c d : Nat)
    (ha : a ≤ 7) (hb : b ≤ 7) (hc : c ≤ 7) (hd : d ≤ 7) :
    tryParseMove (serList (dChar a) (dChar b) (dChar c) (dChar d)) =
      some ⟨(((a : Nat) : ℚ), ((b : Nat) : ℚ)), (((c : Nat) : ℚ), ((d : Nat) : ℚ))⟩ := by
  have hJ := jsonParse_serList a b c d ha hb hc hd
  unfold tryParseMove
  rw [hJ]
  simp +decide [fmtPairs, jsGetField, fromKey, toKey, lookupField, optIsArr, isArrV,
    optIndex, jsIndexN, toNumber, toNumberV,
    inBoard_natCast (by omega : a < 8), inBoard_natCast (by omega : b < 8),
    inBoard_natCast (by omega : c < 8), inBoard_natCast (by omega : d < 8)]

end LlmChess

namespace LlmChess

/-- C7: the move extractor inverts the `{"from":[r,c],"to":[r,c]}`
serialization of a move with integer coordinates in `[0, 7]`. -/
theorem legalMoveFromResponse_roundTrip (a b c d : Nat)
    (ha : a ≤ 7) (hb : b ≤ 7) (hc : c ≤ 7) (hd : d ≤ 7) :
    legalMoveFromResponse (serializeNatMove a b c d) =
      some ⟨(((a : Nat) : ℚ), ((b : Nat) : ℚ)), (((c : Nat) : ℚ), ((d : Nat) : ℚ))⟩ := by
  have hne : ¬ (serializeNatMove a b c d = "") := by
    intro h
    have : (serializeNatMove a b c d).toList = [] := by rw [h]; rfl
    rw [serializeNatMove_toList a b c d ha hb hc hd] at this
    simp [serList] at this
  unfold legalMoveFromResponse
  rw [if_neg hne, serializeNatMove_toList a b c d ha hb hc hd, cleanup_serList]
  obtain ⟨_, _, _, fa4, fa5, fa6, _, _, _, _, _, fa9, _, _, _, _⟩ := digitFacts a ha
  obtain ⟨_, _, _, fb4, fb5, fb6, _, _, _, _, _, fb9, _, _, _, _⟩ := digitFacts b hb
  obtain ⟨_, _, _, fc4, fc5, _, _, _, _, _, _, _, _, _, _, _⟩ := digitFacts c hc
  obtain ⟨_, _, _, fd4, fd5, _, _, _, _, _, _, _, _, _, _, _⟩ := digitFacts d hd
  unfold extractLayers jsonCandidate
  rw [findFromToObj_serList (dChar a) (dChar b) (dChar c) (dChar d)
      fa4 fa5 fa9 fb4 fb5 fb9 fc4 fc5 fd4 fd5]
  simp only [tryParseMove_serList a b c d ha hb hc hd]

/-- C7 witness: the round trip at the concrete move (6,4) → (4,4). -/
theorem legalMoveFromResponse_roundTrip_witness :
    legalMoveFromResponse (serializeNatMove 6 4 4 4) =
      some ⟨((6 : ℚ), (4 : ℚ)), ((4 : ℚ), (4 : ℚ))⟩ := by
  have h := legalMoveFromResponse_roundTrip 6 4 4 4
    (by decide) (by decide) (by decide) (by decide)
  simpa using h

end LlmChess
